import Mathlib

/-!
Verification of the Sokoban solver core (`mySokobanSolver.py`).

The Python source is shallowly embedded: cells are integer pairs, the
`Warehouse` grid model is a structure, Python sets are lists with
membership tests, and the unbounded recursive flood fill is given an
explicit fuel parameter (the Python recursion terminates exactly when the
worker is enclosed by walls; every terminating run is reproduced by a
large enough fuel).  Fallible operations (dictionary lookup, list
indexing) are embedded with `Option`.
-/

namespace Sokoban

/-- A cell: integer coordinates (x, y); x is the column, y is the row. -/
abbrev Cell := Int × Int

/-- Componentwise addition of a cell and a direction delta. -/
def cadd (a b : Cell) : Cell := (a.1 + b.1, a.2 + b.2)

/-- Coordinate of a cell along an axis index (`INDEXES`: x = 0, y = 1). -/
def coord (c : Cell) (axis : Nat) : Int := if axis = 0 then c.1 else c.2

/-- Replace the coordinate of a cell along an axis index. -/
def setCoord (c : Cell) (axis : Nat) (v : Int) : Cell :=
  if axis = 0 then (v, c.2) else (c.1, v)

/-- The `DIRECTIONS` dictionary in its insertion order
(Left, Right, Up, Down), values only. -/
def dirVecs : List Cell := [(-1, 0), (1, 0), (0, -1), (0, 1)]

/-- The grid model supplied by the external `Warehouse` class: the fields
the solver code reads. -/
structure Warehouse where
  worker : Cell
  walls : List Cell
  targets : List Cell
  boxes : List Cell
  weights : List Int
  nrows : Nat
  ncols : Nat
deriving DecidableEq

/-- Embedding of `get_inside_cells`: the four-way recursive flood fill
from the worker, stopping at walls, with the visited set threaded
through.  The Python recursion is unbounded; `fuel` makes it structural.
The four neighbour recursions happen in `DIRECTIONS` order. -/
def get_inside_cells_aux (walls : List Cell) : Nat → List Cell → Cell → List Cell
  | 0, inside, _ => inside
  | fuel + 1, inside, cell =>
    if cell ∈ walls then inside
    else
      let i0 := if cell ∈ inside then inside else cell :: inside
      let n1 := cadd cell (-1, 0)
      let i1 := if n1 ∈ i0 then i0 else get_inside_cells_aux walls fuel i0 n1
      let n2 := cadd cell (1, 0)
      let i2 := if n2 ∈ i1 then i1 else get_inside_cells_aux walls fuel i1 n2
      let n3 := cadd cell (0, -1)
      let i3 := if n3 ∈ i2 then i2 else get_inside_cells_aux walls fuel i2 n3
      let n4 := cadd cell (0, 1)
      if n4 ∈ i3 then i3 else get_inside_cells_aux walls fuel i3 n4

/-- Embedding of `get_inside_cells(warehouse)`: flood fill started at the
worker with an empty visited set. -/
def get_inside_cells (wh : Warehouse) (fuel : Nat) : List Cell :=
  get_inside_cells_aux wh.walls fuel [] wh.worker

/-- The flood-filled region the Python recursion computes when it
terminates: the non-wall cells connected to the start cell through
non-wall cells by unit steps. -/
inductive Reach (walls : List Cell) (start : Cell) : Cell → Prop
  | init : start ∉ walls → Reach walls start start
  | step {c c' : Cell} : Reach walls start c → c' ∉ walls →
      (c'.1 - c.1, c'.2 - c.2) ∈ dirVecs → Reach walls start c'

/-- Embedding of `is_corner`: at least one adjacent wall on the x axis and
at least one on the y axis (`STEPS` order: negative, positive). -/
def is_corner (wh : Warehouse) (cell : Cell) : Prop :=
  ((cell.1 + -1, cell.2) ∈ wh.walls ∨ (cell.1 + 1, cell.2) ∈ wh.walls) ∧
  ((cell.1, cell.2 + -1) ∈ wh.walls ∨ (cell.1, cell.2 + 1) ∈ wh.walls)

instance (wh : Warehouse) (cell : Cell) : Decidable (is_corner wh cell) := by
  unfold is_corner; infer_instance

/-- Embedding of `get_corner_cells`: the cells of the input that are
corners. -/
def get_corner_cells (wh : Warehouse) (cells : List Cell) : List Cell :=
  cells.filter (fun c => decide (is_corner wh c))

/-- Embedding of `has_adjacent_wall`: at least one adjacent wall along the
single given axis (negative step checked first, then positive). -/
def has_adjacent_wall (wh : Warehouse) (cell : Cell) (axisIndex : Nat) : Prop :=
  setCoord cell axisIndex (coord cell axisIndex + -1) ∈ wh.walls ∨
  setCoord cell axisIndex (coord cell axisIndex + 1) ∈ wh.walls

instance (wh : Warehouse) (cell : Cell) (axisIndex : Nat) :
    Decidable (has_adjacent_wall wh cell axisIndex) := by
  unfold has_adjacent_wall; infer_instance

/-- The cell on the line between two aligned corners: the shared-axis
coordinate is fixed, the other axis takes value `v` (the Python code
builds it as a two-element list and fills both slots). -/
def lineCell (sharedAxisIndex : Nat) (sharedValue v : Int) : Cell :=
  setCoord (setCoord (0, 0) sharedAxisIndex sharedValue) (1 - sharedAxisIndex) v

/-- The per-cell test of `get_taboo_cells_between`: not a wall, not a
target, and at least one adjacent wall along the shared axis. -/
def rule2CellCond (wh : Warehouse) (cell : Cell) (sharedAxisIndex : Nat) : Prop :=
  cell ∉ wh.walls ∧ cell ∉ wh.targets ∧ has_adjacent_wall wh cell sharedAxisIndex

instance (wh : Warehouse) (cell : Cell) (sharedAxisIndex : Nat) :
    Decidable (rule2CellCond wh cell sharedAxisIndex) := by
  unfold rule2CellCond; infer_instance

/-- The loop of `get_taboo_cells_between`: walk `n` cells from
non-shared-axis value `v` stepping by `step`, accumulating cells that pass
the test; on the first failing cell the accumulator is cleared and the
loop breaks (returning the empty set). -/
def get_taboo_cells_between_aux (wh : Warehouse) (sharedAxisIndex : Nat)
    (sharedValue step : Int) : Nat → Int → List Cell → List Cell
  | 0, _, acc => acc
  | n + 1, v, acc =>
    let cell := lineCell sharedAxisIndex sharedValue v
    if rule2CellCond wh cell sharedAxisIndex then
      get_taboo_cells_between_aux wh sharedAxisIndex sharedValue step n (v + step) (acc ++ [cell])
    else []

/-- Embedding of `get_taboo_cells_between`: the strictly-between cells on
the shared axis line from `corner` towards `other_corner`.  The Python
`step = rel // abs(rel)` requires the corners to differ on the non-shared
axis (it raises on `rel = 0`); the embedding returns `[]` there, and every
claim about this function assumes distinct aligned corners. -/
def get_taboo_cells_between (wh : Warehouse) (corner other_corner : Cell)
    (sharedAxisIndex : Nat) : List Cell :=
  let ns := 1 - sharedAxisIndex
  let rel := coord other_corner ns - coord corner ns
  let step : Int := if rel < 0 then -1 else 1
  get_taboo_cells_between_aux wh sharedAxisIndex (coord corner sharedAxisIndex) step
    (rel.natAbs - 1) (coord corner ns + step) []

/-- Set-style insertion for the embedding of Python's `set.add`. -/
def insertCell (c : Cell) (l : List Cell) : List Cell :=
  if c ∈ l then l else l ++ [c]

/-- Set-style union for the embedding of Python's `set.update`. -/
def unionCells (l : List Cell) (extra : List Cell) : List Cell :=
  extra.foldl (fun acc c => insertCell c acc) l

/-- Embedding of `itertools.combinations(cells, 2)`: all unordered pairs,
as ordered by the input list. -/
def cornerPairs : List Cell → List (Cell × Cell)
  | [] => []
  | c :: rest => rest.map (fun c2 => (c, c2)) ++ cornerPairs rest

/-- The body of the pair loop of `get_taboo_cells`: add each non-target
corner (Rule 1); if both corners are now in the taboo set and share an
axis (x checked before y), add the cells between them (Rule 2). -/
def get_taboo_cells_step (wh : Warehouse) (taboo : List Cell) (pair : Cell × Cell) :
    List Cell :=
  let corner := pair.1
  let other := pair.2
  let t1 := if corner ∈ wh.targets then taboo else insertCell corner taboo
  let t2 := if other ∈ wh.targets then t1 else insertCell other t1
  if corner ∈ t2 ∧ other ∈ t2 then
    let between :=
      if coord corner 0 = coord other 0 then get_taboo_cells_between wh corner other 0
      else if coord corner 1 = coord other 1 then get_taboo_cells_between wh corner other 1
      else []
    unionCells t2 between
  else t2

/-- Embedding of `get_taboo_cells`: fold the pair loop over all unordered
pairs of corner cells, starting from the empty taboo set. -/
def get_taboo_cells (wh : Warehouse) (corner_cells : List Cell) : List Cell :=
  (cornerPairs corner_cells).foldl (get_taboo_cells_step wh) []

/-- The taboo cell set computed by `taboo_cells` before rendering: flood
fill, corner detection, then the two rules. -/
def tabooCellsSet (wh : Warehouse) (fuel : Nat) : List Cell :=
  get_taboo_cells wh (get_corner_cells wh (get_inside_cells wh fuel))

/-- Embedding of the string built by `taboo_cells`: walls as '#', taboo
cells as 'X', everything else as a space, rows joined by newline. -/
def taboo_cells_string (wh : Warehouse) (fuel : Nat) : String :=
  let taboo := tabooCellsSet wh fuel
  String.intercalate ("\n") ((List.range wh.nrows).map (fun y =>
    String.mk ((List.range wh.ncols).map (fun x =>
      if ((x : Int), (y : Int)) ∈ wh.walls then '#'
      else if ((x : Int), (y : Int)) ∈ taboo then 'X'
      else ' '))))

/-- Embedding of `manhattan_distance`. -/
def manhattan_distance (cell other_cell : Cell) : Int :=
  |cell.1 - other_cell.1| + |cell.2 - other_cell.2|

/-- The unit movement cost `COST`. -/
def COST : Int := 1

/-- The four action labels of the `DIRECTIONS` dictionary. -/
inductive Action
  | Left
  | Right
  | Up
  | Down
deriving DecidableEq

/-- The coordinate delta of an action label. -/
def dir : Action → Cell
  | .Left => (-1, 0)
  | .Right => (1, 0)
  | .Up => (0, -1)
  | .Down => (0, 1)

/-- The actions in the iteration order of the `DIRECTIONS` dictionary. -/
def allActions : List Action := [.Left, .Right, .Up, .Down]

/-- The attributes a `SokobanPuzzle` instance carries: walls, the taboo
set parsed back from the rendered taboo string, the goal box positions
(the warehouse targets) and the box weights. -/
structure Puzzle where
  walls : List Cell
  tabooCells : List Cell
  goalBoxes : List Cell
  weights : List Int
deriving DecidableEq

/-- The `State` namedtuple: worker position and the ordered box tuple. -/
structure SState where
  worker : Cell
  boxes : List Cell
deriving DecidableEq

/-- Construction of `SokobanPuzzle` from a warehouse.  The Python
constructor renders the taboo string and re-parses the 'X' marks; for
cells within the grid bounds that round trip is the taboo set itself, so
the embedding stores the computed set directly. -/
def mkPuzzle (wh : Warehouse) (fuel : Nat) : Puzzle :=
  { walls := wh.walls
    tabooCells := tabooCellsSet wh fuel
    goalBoxes := wh.targets
    weights := wh.weights }

/-- Embedding of `SokobanPuzzle.actions`: keep an action unless it walks
into a wall, or pushes a box into a wall, a taboo cell or another box. -/
def actions (p : Puzzle) (s : SState) : List Action :=
  allActions.filter (fun a =>
    let next := cadd s.worker (dir a)
    if next ∈ p.walls then false
    else if next ∈ s.boxes then
      let bnext := cadd next (dir a)
      !(decide (bnext ∈ p.walls ∨ bnext ∈ p.tabooCells ∨ bnext ∈ s.boxes))
    else true)

/-- Embedding of `SokobanPuzzle.result`: move the worker one step; if a
box occupied the destination, move that box (located by `list.index`,
i.e. its first positional index) one further step.  The Python body
performs no validity check and raises nothing for the four labels; it is
a total function of (state, action). -/
def result (_p : Puzzle) (s : SState) (a : Action) : SState :=
  let next := cadd s.worker (dir a)
  if next ∈ s.boxes then
    let bnext := cadd next (dir a)
    let box_index := s.boxes.findIdx (fun b => decide (b = next))
    { worker := next, boxes := s.boxes.set box_index bnext }
  else
    { worker := next, boxes := s.boxes }

/-- Embedding of `SokobanPuzzle.goal_test`: Python compares
`set(state.boxes) == set(self.goal.boxes)`, i.e. mutual membership. -/
def goal_test (p : Puzzle) (s : SState) : Bool :=
  decide (∀ b ∈ s.boxes, b ∈ p.goalBoxes) && decide (∀ t ∈ p.goalBoxes, t ∈ s.boxes)

/-- Index of the first position at which the two box tuples differ, as
scanned by the loop of `SokobanPuzzle.path_cost` over `zip`. -/
def firstMovedIdx : List Cell → List Cell → Option Nat
  | b1 :: r1, b2 :: r2 =>
    if b1 ≠ b2 then some 0 else (firstMovedIdx r1 r2).map (· + 1)
  | _, _ => none

/-- Embedding of `SokobanPuzzle.path_cost`: if some box moved, add the
unit cost plus that box's weight; otherwise add the unit cost.  The
Python `self.weights[box_index]` raises when the index is out of range;
the embedding returns `none` there. -/
def path_cost (p : Puzzle) (c : Int) (s1 : SState) (_a : Action) (s2 : SState) :
    Option Int :=
  match firstMovedIdx s1.boxes s2.boxes with
  | some i => (p.weights[i]?).map (fun w => c + (COST + w))
  | none => some (c + COST)

/-- Python's `min(x, *xs)`: a left fold of `min` seeded with the first
generated value. -/
def pyMin (x : Int) (xs : List Int) : Int := xs.foldl min x

/-- Embedding of `SokobanPuzzle.h`: sum over `zip(boxes, weights)` of the
minimum over the goal boxes of the Manhattan distance times
(weight + COST).  Python's `min` raises on an empty target list; the
embedding returns 0 there, and the claim assumes at least one target. -/
def h (p : Puzzle) (s : SState) : Int :=
  ((s.boxes.zip p.weights).map (fun bw =>
    match p.goalBoxes.map (fun t => manhattan_distance bw.1 t * (bw.2 + COST)) with
    | [] => 0
    | d :: ds => pyMin d ds)).sum

/-- The `DIRECTIONS` dictionary itself, for string-keyed lookup in
`check_elem_action_seq`. -/
def DIRECTIONS : List (String × Cell) :=
  [("Left", (-1, 0)), ("Right", (1, 0)), ("Up", (0, -1)), ("Down", (0, 1))]

/-- Python's `DIRECTIONS[action]`: `some` delta for the four labels,
`none` (a raised `KeyError`) for anything else. -/
def lookupDirection (a : String) : Option Cell :=
  (DIRECTIONS.find? (fun p => decide (p.1 = a))).map (fun p => p.2)

/-- Outcome of `check_elem_action_seq`: the fatal lookup error raised by
`DIRECTIONS[action]` on an unrecognized label, the in-band 'Impossible'
marker, or the rendered final grid. -/
inductive CheckResult
  | keyError
  | impossible
  | grid (s : String)
deriving DecidableEq

/-- Modelled from the spec: `Warehouse.__str__` lives in `sokoban.py`,
which is not among the sources; section 6 of the spec fixes the character
set: '#' wall, '*' box on target, '$' box, '!' worker on target,
'@' worker, '.' target, ' ' floor, rows joined by newline. -/
def cellChar (wh : Warehouse) (c : Cell) : Char :=
  if c ∈ wh.walls then '#'
  else if c ∈ wh.boxes ∧ c ∈ wh.targets then '*'
  else if c ∈ wh.boxes then '$'
  else if c = wh.worker ∧ c ∈ wh.targets then '!'
  else if c = wh.worker then '@'
  else if c ∈ wh.targets then '.'
  else ' '

/-- Modelled from the spec: the text rendering of a warehouse over its
rectangular bounds (`Warehouse.__str__` is not among the sources). -/
def renderWarehouse (wh : Warehouse) : String :=
  String.intercalate ("\n") ((List.range wh.nrows).map (fun y =>
    String.mk ((List.range wh.ncols).map (fun x => cellChar wh ((x : Int), (y : Int))))))

/-- Intermediate outcome of the action loop of `check_elem_action_seq`,
before the final grid is rendered. -/
inductive ReplayOut
  | keyError
  | impossible
  | done (wh : Warehouse)
deriving DecidableEq

/-- The action loop of `check_elem_action_seq`, acting on the copied
warehouse: look the label up in `DIRECTIONS` (a fatal `KeyError` if
absent), abort with 'Impossible' on walking into a wall or pushing a box
into a wall or another box, otherwise update the box (by its first
positional index) and the worker. -/
def ceasLoop : Warehouse → List String → ReplayOut
  | wh, [] => .done wh
  | wh, a :: rest =>
    match lookupDirection a with
    | none => .keyError
    | some d =>
      let next := cadd wh.worker d
      if next ∈ wh.walls then .impossible
      else if next ∈ wh.boxes then
        let bnext := cadd next d
        if bnext ∈ wh.walls ∨ bnext ∈ wh.boxes then .impossible
        else
          let box_index := wh.boxes.findIdx (fun b => decide (b = next))
          ceasLoop { wh with worker := next, boxes := wh.boxes.set box_index bnext } rest
      else ceasLoop { wh with worker := next } rest

/-- Embedding of `check_elem_action_seq`: run the loop on (a copy of) the
warehouse, then render the final grid on success. -/
def check_elem_action_seq (wh : Warehouse) (action_seq : List String) : CheckResult :=
  match ceasLoop wh action_seq with
  | .keyError => .keyError
  | .impossible => .impossible
  | .done w => .grid (renderWarehouse w)

/-- Modelled from the spec (section 4.4), for comparison with the code:
one validator step.  Compute the destination; a wall aborts; if the
destination holds a box, the cell beyond must be neither wall nor box,
and the box moves there (the first box at that position, boxes being
pairwise distinct in well-formed grids); finally the worker moves. -/
def specStep (wh : Warehouse) (d : Cell) : Option Warehouse :=
  let dest := cadd wh.worker d
  if dest ∈ wh.walls then none
  else if dest ∈ wh.boxes then
    let beyond := cadd dest d
    if beyond ∈ wh.walls ∨ beyond ∈ wh.boxes then none
    else
      let idx := wh.boxes.findIdx (fun b => decide (b = dest))
      some { wh with worker := dest, boxes := wh.boxes.set idx beyond }
  else some { wh with worker := dest }

/-- Modelled from the spec: replay the whole delta sequence in order,
aborting at the first illegal step. -/
def specReplay : Warehouse → List Cell → Option Warehouse
  | wh, [] => some wh
  | wh, d :: ds =>
    match specStep wh d with
    | none => none
    | some w => specReplay w ds

/-- The deltas of a label sequence all of whose labels are recognized. -/
def dirsOf (seq : List String) : List Cell :=
  seq.map (fun a => (lookupDirection a).getD (0, 0))

/-- The cells strictly between two aligned corners, in walking order:
`n` cells starting at non-shared-axis value `v`, stepping by `step`. -/
def lineCells (sharedAxisIndex : Nat) (sharedValue step : Int) : Nat → Int → List Cell
  | 0, _ => []
  | n + 1, v =>
    lineCell sharedAxisIndex sharedValue v ::
      lineCells sharedAxisIndex sharedValue step n (v + step)

/-- The strictly-between cells of an aligned corner pair, from `corner`
towards `other_corner`. -/
def intermediateCells (corner other_corner : Cell) (sharedAxisIndex : Nat) : List Cell :=
  let ns := 1 - sharedAxisIndex
  let rel := coord other_corner ns - coord corner ns
  let step : Int := if rel < 0 then -1 else 1
  lineCells sharedAxisIndex (coord corner sharedAxisIndex) step
    (rel.natAbs - 1) (coord corner ns + step)

/-- Modelled from the spec's wording of Rule 2, for comparison with the
code: "a wall runs continuously adjacent on the same side (either the
negative-offset side or the positive-offset side consistently) for the
entire span". -/
def specSameSideWallRun (wh : Warehouse) (corner other_corner : Cell)
    (sharedAxisIndex : Nat) : Prop :=
  ∃ s ∈ [(-1 : Int), 1], ∀ c ∈ intermediateCells corner other_corner sharedAxisIndex,
    setCoord c sharedAxisIndex (coord c sharedAxisIndex + s) ∈ wh.walls

instance (wh : Warehouse) (corner other_corner : Cell) (sharedAxisIndex : Nat) :
    Decidable (specSameSideWallRun wh corner other_corner sharedAxisIndex) := by
  unfold specSameSideWallRun; infer_instance

/-- The heuristic value of one box as the spec words it: the minimum over
all targets of (Manhattan distance from box to target) × (unit cost +
that box's weight). -/
def specBoxEstimate (p : Puzzle) (box : Cell) (w : Int) : Int :=
  ((p.goalBoxes.map (fun t => manhattan_distance box t * (COST + w))).min?).getD 0

/-- The heuristic as the spec words it: sum the per-box estimates across
all boxes, each box paired with its weight by position. -/
def specH (p : Puzzle) (s : SState) : Int :=
  ((List.range s.boxes.length).map (fun i =>
    specBoxEstimate p (s.boxes.getD i (0, 0)) (p.weights.getD i 0))).sum

/-- A Python `Warehouse` object for the frame claim: the mutable
list-valued attributes (`boxes`, `weights`) are stored by heap location,
the scalar attribute `worker` lives in the object itself, and the fields
never written through any alias are held as plain values. -/
structure Obj where
  worker : Cell
  boxesLoc : Nat
  weightsLoc : Nat
  walls : List Cell
  targets : List Cell
  nrows : Nat
  ncols : Nat
deriving DecidableEq

instance : Inhabited Obj := ⟨⟨(0, 0), 0, 0, [], [], 0, 0⟩⟩

/-- The store of warehouse objects and list objects: locations are list
indices, allocation appends. -/
structure Heap where
  objs : List Obj
  cellLists : List (List Cell)
  intLists : List (List Int)
deriving DecidableEq

/-- Attribute assignment on an object (`obj.worker = ...`). -/
def Heap.setObj (h : Heap) (i : Nat) (o : Obj) : Heap :=
  { h with objs := h.objs.set i o }

/-- In-place update of a cell-list object (`boxes[i] = ...`). -/
def Heap.setCellList (h : Heap) (l : Nat) (v : List Cell) : Heap :=
  { h with cellLists := h.cellLists.set l v }

/-- Allocation of a fresh warehouse object. -/
def Heap.allocObj (h : Heap) (o : Obj) : Heap × Nat :=
  ({ h with objs := h.objs ++ [o] }, h.objs.length)

/-- Allocation of a fresh cell-list object. -/
def Heap.allocCellList (h : Heap) (v : List Cell) : Heap × Nat :=
  ({ h with cellLists := h.cellLists ++ [v] }, h.cellLists.length)

/-- Allocation of a fresh int-list object. -/
def Heap.allocIntList (h : Heap) (v : List Int) : Heap × Nat :=
  ({ h with intLists := h.intLists ++ [v] }, h.intLists.length)

/-- Modelled from the spec: `Warehouse.copy` is in `sokoban.py`, not
among the sources.  The validator "operates on a copy of the grid model";
the call site passes `warehouse.boxes.copy()` and
`warehouse.weights.copy()`, so the copy is a freshly allocated object
whose boxes and weights are freshly allocated lists with the same
contents. -/
def warehouseCopy (h : Heap) (srcId : Nat) : Heap × Nat :=
  let src := h.objs.getD srcId default
  let boxes := h.cellLists.getD src.boxesLoc []
  let weights := h.intLists.getD src.weightsLoc []
  let p1 := h.allocCellList boxes
  let p2 := p1.1.allocIntList weights
  p2.1.allocObj { src with boxesLoc := p1.2, weightsLoc := p2.2 }

/-- The grid-model value an object currently denotes. -/
def objWarehouse (h : Heap) (oid : Nat) : Warehouse :=
  let o := h.objs.getD oid default
  { worker := o.worker
    walls := o.walls
    targets := o.targets
    boxes := h.cellLists.getD o.boxesLoc []
    weights := h.intLists.getD o.weightsLoc []
    nrows := o.nrows
    ncols := o.ncols }

/-- The action loop of `check_elem_action_seq` at the heap level: writes
go only to the given object id (`.worker = ...`) and to its boxes
location (`boxes[box_index] = ...`). -/
def ceasHeapLoop : Heap → Nat → List String → Heap × CheckResult
  | h, oid, [] => (h, .grid (renderWarehouse (objWarehouse h oid)))
  | h, oid, a :: rest =>
    match lookupDirection a with
    | none => (h, .keyError)
    | some d =>
      let o := h.objs.getD oid default
      let boxes := h.cellLists.getD o.boxesLoc []
      let next := cadd o.worker d
      if next ∈ o.walls then (h, .impossible)
      else if next ∈ boxes then
        let bnext := cadd next d
        if bnext ∈ o.walls ∨ bnext ∈ boxes then (h, .impossible)
        else
          let box_index := boxes.findIdx (fun b => decide (b = next))
          let h1 := h.setCellList o.boxesLoc (boxes.set box_index bnext)
          ceasHeapLoop (h1.setObj oid { o with worker := next }) oid rest
      else ceasHeapLoop (h.setObj oid { o with worker := next }) oid rest

/-- Embedding of `check_elem_action_seq` at the heap level: copy the
caller's warehouse, then run the loop on the copy. -/
def check_elem_action_seq_heap (h : Heap) (whId : Nat) (action_seq : List String) :
    Heap × CheckResult :=
  let p := warehouseCopy h whId
  ceasHeapLoop p.1 p.2 action_seq

/-- Puzzle instance for counterexamples about `goal_test`. -/
def p5ex : Puzzle :=
  { walls := [], tabooCells := [], goalBoxes := [(1, 1), (2, 2)], weights := [1, 1] }

/-- A state whose box tuple repeats a coordinate: its boxes equal the
targets of `p5ex` as a set but not as a multiset. -/
def s5ex : SState := { worker := (0, 0), boxes := [(1, 1), (1, 1), (2, 2)] }

/-- Puzzle instance for the counterexample about `result`: a wall just
above the worker. -/
def p7ex : Puzzle :=
  { walls := [(0, -1)], tabooCells := [], goalBoxes := [], weights := [] }

/-- State for the counterexample about `result`. -/
def s7ex : SState := { worker := (0, 0), boxes := [] }

/-- Puzzle instance for the transition-conservation witness. -/
def p3ex : Puzzle := { walls := [], tabooCells := [], goalBoxes := [], weights := [] }

/-- State for the transition-conservation witness: one box to the right
of the worker. -/
def s3ex : SState := { worker := (0, 0), boxes := [(1, 0)] }

/-- Puzzle instance for the path-cost witness. -/
def p4ex : Puzzle := { walls := [], tabooCells := [], goalBoxes := [], weights := [2] }

/-- States for the path-cost witness: the single box moved. -/
def s4ex1 : SState := { worker := (0, 0), boxes := [(1, 0)] }

/-- Second state for the path-cost witness. -/
def s4ex2 : SState := { worker := (1, 0), boxes := [(2, 0)] }

/-- Puzzle instance for the heuristic witness. -/
def p8ex : Puzzle := { walls := [], tabooCells := [], goalBoxes := [(0, 0)], weights := [2] }

/-- State for the heuristic witness. -/
def s8ex : SState := { worker := (5, 5), boxes := [(1, 1)] }

/-- A small enclosed warehouse: the worker alone in a 3×3 room. -/
def whA : Warehouse :=
  { worker := (1, 1)
    walls := [(0, 0), (1, 0), (2, 0), (0, 1), (2, 1), (0, 2), (1, 2), (2, 2)]
    targets := []
    boxes := []
    weights := []
    nrows := 3
    ncols := 3 }

/-- Warehouse for the Rule-2 counterexample: the corners (0,0) and (0,3)
are aligned on x = 0 and non-target; the intermediate cells (0,1) and
(0,2) each have an adjacent wall, but on opposite sides — (1,1) on the
positive side, (-1,2) on the negative side — so no wall runs
continuously along one side of the span. -/
def wh1ex : Warehouse :=
  { worker := (0, 0)
    walls := [(-1, 0), (0, -1), (-1, 3), (0, 4), (1, 1), (-1, 2)]
    targets := []
    boxes := []
    weights := []
    nrows := 0
    ncols := 0 }

/-- A 5×3 room: worker at (1,1), interior row (1,1)–(3,1), no targets.
Both interior ends are corners and the middle cell lies between them
along the bottom wall, so the taboo set is the whole interior row. -/
def wh6ex : Warehouse :=
  { worker := (1, 1)
    walls := [(0, 0), (1, 0), (2, 0), (3, 0), (4, 0), (0, 1), (4, 1),
              (0, 2), (1, 2), (2, 2), (3, 2), (4, 2)]
    targets := []
    boxes := []
    weights := []
    nrows := 3
    ncols := 5 }

/-- A one-object heap for the frame witness: the caller's warehouse with
one box and one weight. -/
def heap9ex : Heap :=
  { objs := [{ worker := (1, 1), boxesLoc := 0, weightsLoc := 0,
               walls := [(0, 0)], targets := [], nrows := 2, ncols := 2 }]
    cellLists := [[(5, 5)]]
    intLists := [[3]] }

-- Theorems

/-- No action delta is the zero vector, so a pushed box really changes
its coordinate. -/
theorem cadd_dir_ne (c : Cell) (a : Action) : cadd c (dir a) ≠ c := by
  cases a <;> simp [cadd, dir, Prod.ext_iff]

/-- The loop of `path_cost` finds the unique differing index when the box
tuples have equal length and differ at exactly one position. -/
theorem firstMovedIdx_eq_some (l1 l2 : List Cell) (i : Nat)
    (hlen : l1.length = l2.length) (hi : i < l1.length)
    (hdiff : l1[i]? ≠ l2[i]?) (hsame : ∀ j, j ≠ i → l1[j]? = l2[j]?) :
    firstMovedIdx l1 l2 = some i := by
  induction l1 generalizing l2 i with
  | nil => simp at hi
  | cons b1 r1 ih =>
    cases l2 with
    | nil => simp at hlen
    | cons b2 r2 =>
      cases i with
      | zero =>
        have hne : b1 ≠ b2 := by simpa using hdiff
        simp [firstMovedIdx, hne]
      | succ i =>
        have hb : b1 = b2 := by
          have := hsame 0 (by omega)
          simpa using this
        have hrec : firstMovedIdx r1 r2 = some i := by
          refine ih r2 i (by simpa using hlen) (by simpa using hi)
            (by simpa using hdiff) ?_
          intro j hj
          have := hsame (j + 1) (by omega)
          simpa using this
        simp [firstMovedIdx, hb, hrec]

/-- C5 counterexample: `goal_test` compares Python sets, so a state whose
boxes cover the targets as a set but not as a multiset is accepted,
against the claim's multiset reading. -/
theorem goal_test_multiset_counterexample :
    goal_test p5ex s5ex = true ∧
    ¬ (Multiset.ofList s5ex.boxes = Multiset.ofList p5ex.goalBoxes) := by
  decide

/-- C5 (amended): `goal_test` is true exactly when the boxes and the goal
boxes are equal as sets (mutual membership), and the worker position
never affects the answer. -/
theorem goal_test_set_characterization (p : Puzzle) (w1 w2 : Cell) (boxes : List Cell) :
    (goal_test p ⟨w1, boxes⟩ = true ↔ ∀ x : Cell, x ∈ boxes ↔ x ∈ p.goalBoxes) ∧
    goal_test p ⟨w1, boxes⟩ = goal_test p ⟨w2, boxes⟩ := by
  constructor
  · simp only [goal_test, Bool.and_eq_true, decide_eq_true_eq]
    constructor
    · rintro ⟨h1, h2⟩ x
      exact ⟨fun hx => h1 x hx, fun hx => h2 x hx⟩
    · intro hiff
      exact ⟨fun b hb => (hiff b).mp hb, fun t ht => (hiff t).mpr ht⟩
  · rfl

/-- C7 counterexample: `Up` is illegal (it walks into a wall), yet
`result` raises nothing and returns a state with the worker inside the
wall: the precondition violation is silently turned into a state. -/
theorem result_no_failfast_counterexample :
    Action.Up ∉ actions p7ex s7ex ∧
    result p7ex s7ex Action.Up = { worker := (0, -1), boxes := [] } ∧
    (result p7ex s7ex Action.Up).worker ∈ p7ex.walls := by
  decide

/-- C7 (amended): for the four labels `result` is total and never
signals: legal or not, it returns the state obtained by moving the worker
one step (and the box-tuple length is preserved); illegal actions are not
detected. -/
theorem result_total_on_labels (p : Puzzle) (s : SState) (a : Action) :
    (result p s a).worker = cadd s.worker (dir a) ∧
    (result p s a).boxes.length = s.boxes.length := by
  simp only [result]
  split <;> simp

/-- C3: a legal transition preserves the box-tuple length; when the
action pushes a box exactly one positional index changes its coordinate
(the pushed box, found by first index), otherwise the box tuple is
unchanged.  The embedding is purely functional, mirroring the Python
code's construction of a fresh `State`, so the input state is never
mutated. -/
theorem result_conservation (p : Puzzle) (s : SState) (a : Action)
    (_h : a ∈ actions p s) :
    ((result p s a).boxes.length = s.boxes.length) ∧
    (if cadd s.worker (dir a) ∈ s.boxes then
      ∃ i, i < s.boxes.length ∧ (result p s a).boxes[i]? ≠ s.boxes[i]? ∧
        ∀ j, j ≠ i → (result p s a).boxes[j]? = s.boxes[j]?
    else (result p s a).boxes = s.boxes) := by
  by_cases hm : cadd s.worker (dir a) ∈ s.boxes
  · have hres : (result p s a).boxes =
        s.boxes.set (s.boxes.findIdx (fun b => decide (b = cadd s.worker (dir a))))
          (cadd (cadd s.worker (dir a)) (dir a)) := by
      simp only [result, if_pos hm]
    have hidx : s.boxes.findIdx (fun b => decide (b = cadd s.worker (dir a))) <
        s.boxes.length :=
      List.findIdx_lt_length_of_exists ⟨_, hm, by simp⟩
    have hval : s.boxes[s.boxes.findIdx (fun b => decide (b = cadd s.worker (dir a)))]?
        = some (cadd s.worker (dir a)) := by
      rw [List.getElem?_eq_getElem hidx]
      have := @List.findIdx_getElem _ (fun b => decide (b = cadd s.worker (dir a)))
        s.boxes hidx
      simpa using this
    refine ⟨by rw [hres]; exact List.length_set .., ?_⟩
    rw [if_pos hm]
    refine ⟨s.boxes.findIdx (fun b => decide (b = cadd s.worker (dir a))), hidx, ?_, ?_⟩
    · rw [hres, List.getElem?_set_self hidx, hval]
      intro hcontra
      exact cadd_dir_ne _ a (Option.some.inj hcontra)
    · intro j hj
      rw [hres]
      exact List.getElem?_set_ne (fun hc => hj hc.symm)
  · have hres : result p s a = { worker := cadd s.worker (dir a), boxes := s.boxes } := by
      simp only [result, if_neg hm]
    rw [if_neg hm, hres]
    exact ⟨rfl, rfl⟩

/-- C3 witness: pushing the box at (1,0) right from (0,0) is legal and
the conclusion holds there. -/
theorem result_conservation_witness :
    Action.Right ∈ actions p3ex s3ex ∧
    (((result p3ex s3ex Action.Right).boxes.length = s3ex.boxes.length) ∧
    (if cadd s3ex.worker (dir Action.Right) ∈ s3ex.boxes then
      ∃ i, i < s3ex.boxes.length ∧
        (result p3ex s3ex Action.Right).boxes[i]? ≠ s3ex.boxes[i]? ∧
        ∀ j, j ≠ i → (result p3ex s3ex Action.Right).boxes[j]? = s3ex.boxes[j]?
    else (result p3ex s3ex Action.Right).boxes = s3ex.boxes)) :=
  ⟨by decide, result_conservation p3ex s3ex Action.Right (by decide)⟩

/-- C4: when exactly one box (index `i`) differs between the two states
and weights are non-negative, `path_cost` adds the unit cost plus that
box's weight, and every returned cost is at least the accumulated cost
plus one. -/
theorem path_cost_spec (p : Puzzle) (c : Int) (s1 : SState) (a : Action) (s2 : SState)
    (i : Nat) (hlen : s1.boxes.length = s2.boxes.length) (hi : i < s1.boxes.length)
    (hdiff : s1.boxes[i]? ≠ s2.boxes[i]?)
    (hsame : ∀ j, j ≠ i → s1.boxes[j]? = s2.boxes[j]?)
    (hiw : i < p.weights.length) (hw : ∀ w ∈ p.weights, 0 ≤ w) :
    path_cost p c s1 a s2 = some (c + 1 + p.weights.getD i 0) ∧
    ∀ v, path_cost p c s1 a s2 = some v → c + 1 ≤ v := by
  have hfmi := firstMovedIdx_eq_some _ _ i hlen hi hdiff hsame
  have hwv : p.weights[i]? = some (p.weights.getD i 0) := by
    rw [List.getElem?_eq_getElem hiw]
    rw [List.getD_eq_getElem?_getD, List.getElem?_eq_getElem hiw]
    rfl
  constructor
  · simp only [path_cost, hfmi, hwv, Option.map_some', Option.some.injEq]
    unfold COST
    omega
  · intro v hv
    simp only [path_cost, hfmi, hwv, Option.map_some', Option.some.injEq] at hv
    have hmem : p.weights.getD i 0 ∈ p.weights := List.getElem?_mem hwv
    have := hw _ hmem
    unfold COST at hv
    omega

/-- C4 witness: cost 5, a single box of weight 2 moved, giving 5+1+2. -/
theorem path_cost_spec_witness :
    (s4ex1.boxes.length = s4ex2.boxes.length ∧ 0 < s4ex1.boxes.length ∧
      s4ex1.boxes[0]? ≠ s4ex2.boxes[0]? ∧ 0 < p4ex.weights.length) ∧
    (path_cost p4ex 5 s4ex1 Action.Right s4ex2 = some (5 + 1 + p4ex.weights.getD 0 0) ∧
    ∀ v, path_cost p4ex 5 s4ex1 Action.Right s4ex2 = some v → 5 + 1 ≤ v) :=
  ⟨by decide,
    path_cost_spec p4ex 5 s4ex1 Action.Right s4ex2 0 (by decide) (by decide) (by decide)
      (by
        intro j hj
        cases j with
        | zero => exact absurd rfl hj
        | succ j => simp [s4ex1, s4ex2])
      (by decide) (by decide)⟩

/-- The fold Python's `min` performs lands on one of the generated
values. -/
theorem pyMin_mem (x : Int) (xs : List Int) : pyMin x xs ∈ x :: xs := by
  induction xs generalizing x with
  | nil => simp [pyMin]
  | cons y ys ih =>
    have hstep : pyMin x (y :: ys) = pyMin (min x y) ys := rfl
    rw [hstep]
    rcases List.mem_cons.mp (ih (min x y)) with h1 | h2
    · rcases min_choice x y with hc | hc
      · rw [h1, hc]; exact List.mem_cons_self _ _
      · rw [h1, hc]; simp
    · simp [h2]

/-- The per-box value of `h` equals the spec's per-box minimum. -/
theorem hBox_eq_specBoxEstimate (p : Puzzle) (b : Cell) (w : Int) :
    (match p.goalBoxes.map (fun t => manhattan_distance b t * (w + COST)) with
      | [] => 0
      | d :: ds => pyMin d ds) = specBoxEstimate p b w := by
  unfold specBoxEstimate
  have hfun : (fun t => manhattan_distance b t * (COST + w)) =
      (fun t => manhattan_distance b t * (w + COST)) := by
    funext u; ring
  rw [hfun]
  cases hgb : p.goalBoxes with
  | nil => simp
  | cons t ts =>
    simp only [List.map_cons]
    rfl

/-- The zipped sum of `h` equals the index-ranged sum of the spec formula
when boxes and weights have equal length. -/
theorem hAux_eq_spec (p : Puzzle) (boxes : List Cell) :
    ∀ weights : List Int, boxes.length = weights.length →
    ((boxes.zip weights).map (fun bw =>
      match p.goalBoxes.map (fun t => manhattan_distance bw.1 t * (bw.2 + COST)) with
      | [] => 0
      | d :: ds => pyMin d ds)).sum =
    ((List.range boxes.length).map (fun i =>
      specBoxEstimate p (boxes.getD i (0, 0)) (weights.getD i 0))).sum := by
  induction boxes with
  | nil => intro weights _; simp
  | cons b bs ih =>
    intro weights hlen
    cases weights with
    | nil => simp at hlen
    | cons w ws =>
      simp only [List.zip_cons_cons, List.map_cons, List.sum_cons, List.length_cons]
      rw [List.range_succ_eq_map]
      simp only [List.map_cons, List.sum_cons, List.map_map]
      have hhead := hBox_eq_specBoxEstimate p b w
      rw [hhead, List.getD_cons_zero, List.getD_cons_zero]
      congr 1
      have htail := ih ws (by simpa using hlen)
      rw [htail]
      refine congrArg List.sum (List.map_congr_left ?_)
      intro i _
      simp [Function.comp, List.getD_cons_succ]

/-- Each per-box value of `h` is non-negative when that box's weight
is. -/
theorem h_nonneg (p : Puzzle) (s : SState) (hw : ∀ w ∈ p.weights, 0 ≤ w) :
    0 ≤ h p s := by
  unfold h
  apply List.sum_nonneg
  intro x hx
  simp only [List.mem_map] at hx
  obtain ⟨bw, hbw, rfl⟩ := hx
  have hw2 : 0 ≤ bw.2 := hw _ (List.of_mem_zip hbw).2
  cases hgb : p.goalBoxes.map (fun t => manhattan_distance bw.1 t * (bw.2 + COST)) with
  | nil => simp [hgb]
  | cons d ds =>
    simp only [hgb]
    have hmem := pyMin_mem d ds
    rw [← hgb] at hmem
    simp only [List.mem_map] at hmem
    obtain ⟨t, _, hval⟩ := hmem
    rw [← hval]
    apply mul_nonneg
    · unfold manhattan_distance
      positivity
    · unfold COST
      omega

/-- C8: with at least one target, matching box/weight lengths and
non-negative weights, `h` computes the spec's formula — the sum over all
boxes of the minimum over all targets of the Manhattan distance times
(unit cost + the box's weight) — and its value is non-negative. -/
theorem h_matches_spec (p : Puzzle) (s : SState) (_hne : p.goalBoxes ≠ [])
    (hlen : s.boxes.length = p.weights.length) (hw : ∀ w ∈ p.weights, 0 ≤ w) :
    h p s = specH p s ∧ 0 ≤ h p s := by
  refine ⟨?_, h_nonneg p s hw⟩
  unfold h specH
  exact hAux_eq_spec p s.boxes p.weights hlen

/-- C8 witness: one box at (1,1) of weight 2, one target at the origin:
the heuristic is defined, matches the spec formula, and is
non-negative. -/
theorem h_matches_spec_witness :
    (p8ex.goalBoxes ≠ [] ∧ s8ex.boxes.length = p8ex.weights.length ∧
      h p8ex s8ex = 6) ∧
    (h p8ex s8ex = specH p8ex s8ex ∧ 0 ≤ h p8ex s8ex) :=
  ⟨by decide,
    h_matches_spec p8ex s8ex (by decide) (by decide) (by decide)⟩

/-- Splitting the validator loop at a list append: the suffix runs only
if the prefix ran to completion. -/
theorem ceasLoop_append (pre suf : List String) : ∀ wh : Warehouse,
    ceasLoop wh (pre ++ suf) =
    match ceasLoop wh pre with
    | .done w => ceasLoop w suf
    | .keyError => .keyError
    | .impossible => .impossible := by
  induction pre with
  | nil => intro wh; rfl
  | cons a rest ih =>
    intro wh
    simp only [List.cons_append, ceasLoop]
    cases lookupDirection a with
    | none => rfl
    | some d =>
      by_cases h1 : cadd wh.worker d ∈ wh.walls
      · simp [h1]
      · by_cases h2 : cadd wh.worker d ∈ wh.boxes
        · by_cases h3 : cadd (cadd wh.worker d) d ∈ wh.walls ∨
              cadd (cadd wh.worker d) d ∈ wh.boxes
          · simp [h1, h2, h3]
          · simp only [if_neg h1, if_pos h2, if_neg h3]
            exact ih _
        · simp only [if_neg h1, if_neg h2]
          exact ih _

/-- C10: a label outside the four directions, reached after a prefix that
replays to completion, makes `check_elem_action_seq` fail with the fatal
lookup error — never with the in-band 'Impossible' marker. -/
theorem unknown_label_key_error (wh : Warehouse) (pre rest : List String) (bad : String)
    (hbad : lookupDirection bad = none) (w : Warehouse)
    (hpre : ceasLoop wh pre = .done w) :
    check_elem_action_seq wh (pre ++ bad :: rest) = .keyError ∧
    check_elem_action_seq wh (pre ++ bad :: rest) ≠ .impossible := by
  have hloop : ceasLoop wh (pre ++ bad :: rest) = .keyError := by
    rw [ceasLoop_append, hpre]
    simp [ceasLoop, hbad]
  refine ⟨?_, ?_⟩ <;> simp [check_elem_action_seq, hloop]

/-- C10 witness: the unrecognized label "Wait" as the first action of a
sequence raises the lookup error. -/
theorem unknown_label_key_error_witness :
    (lookupDirection ("Wait") = none ∧ ceasLoop whA [] = .done whA) ∧
    (check_elem_action_seq whA ([] ++ "Wait" :: ["Up"]) = .keyError ∧
      check_elem_action_seq whA ([] ++ "Wait" :: ["Up"]) ≠ .impossible) :=
  ⟨⟨by decide, rfl⟩,
    unknown_label_key_error whA [] ["Up"] "Wait" (by decide) whA rfl⟩

/-- The validator loop computes exactly the spec's replay when every
label is recognized. -/
theorem ceasLoop_matches_specReplay (seq : List String) : ∀ wh : Warehouse,
    (∀ a ∈ seq, (lookupDirection a).isSome) →
    ceasLoop wh seq =
    match specReplay wh (dirsOf seq) with
    | none => .impossible
    | some w => .done w := by
  induction seq with
  | nil => intro wh _; rfl
  | cons a rest ih =>
    intro wh hval
    obtain ⟨d, hd⟩ := Option.isSome_iff_exists.mp (hval a (List.mem_cons_self a rest))
    have hdirs : dirsOf (a :: rest) = d :: dirsOf rest := by simp [dirsOf, hd]
    rw [hdirs]
    simp only [ceasLoop, hd, specReplay, specStep]
    by_cases h1 : cadd wh.worker d ∈ wh.walls
    · simp [h1]
    · by_cases h2 : cadd wh.worker d ∈ wh.boxes
      · by_cases h3 : cadd (cadd wh.worker d) d ∈ wh.walls ∨
            cadd (cadd wh.worker d) d ∈ wh.boxes
        · simp [h1, h2, h3]
        · simp only [if_neg h1, if_pos h2, if_neg h3]
          exact ih _ (fun x hx => hval x (List.mem_cons_of_mem a hx))
      · simp only [if_neg h1, if_neg h2]
        exact ih _ (fun x hx => hval x (List.mem_cons_of_mem a hx))

/-- The validator loop never reads the targets or the weights: changing
them changes nothing but the targets/weights carried into the final
state. -/
theorem ceasLoop_targets_weights (seq : List String) :
    ∀ (wh : Warehouse) (tg : List Cell) (wt : List Int),
    ceasLoop { wh with targets := tg, weights := wt } seq =
    match ceasLoop wh seq with
    | .done w => .done { w with targets := tg, weights := wt }
    | .keyError => .keyError
    | .impossible => .impossible := by
  induction seq with
  | nil => intros; rfl
  | cons a rest ih =>
    intro wh tg wt
    cases hd : lookupDirection a with
    | none => simp only [ceasLoop, hd]
    | some d =>
      simp only [ceasLoop, hd]
      by_cases h1 : cadd wh.worker d ∈ wh.walls
      · simp [h1]
      · by_cases h2 : cadd wh.worker d ∈ wh.boxes
        · by_cases h3 : cadd (cadd wh.worker d) d ∈ wh.walls ∨
              cadd (cadd wh.worker d) d ∈ wh.boxes
          · simp [h1, h2, h3]
          · simp only [if_neg h1, if_pos h2, if_neg h3]
            exact ih { wh with worker := cadd wh.worker d, boxes := wh.boxes.set (wh.boxes.findIdx (fun b => decide (b = cadd wh.worker d))) (cadd (cadd wh.worker d) d) } tg wt
        · simp only [if_neg h1, if_neg h2]
          exact ih { wh with worker := cadd wh.worker d } tg wt

/-- C2: over the four labels, `check_elem_action_seq` returns
'Impossible' exactly when the spec's replay aborts (a worker step into a
wall, or a box pushed into a wall or another box); on success it returns
the rendered final grid; and the taboo set is never consulted — the
legality verdict is unchanged under any replacement of the targets (from
which, with the walls, the taboo set is computed) and weights. -/
theorem check_elem_action_seq_spec (wh : Warehouse) (seq : List String)
    (hval : ∀ a ∈ seq, (lookupDirection a).isSome) :
    (check_elem_action_seq wh seq = .impossible ↔ specReplay wh (dirsOf seq) = none) ∧
    (∀ w, specReplay wh (dirsOf seq) = some w →
      check_elem_action_seq wh seq = .grid (renderWarehouse w)) ∧
    (∀ (tg : List Cell) (wt : List Int),
      check_elem_action_seq { wh with targets := tg, weights := wt } seq = .impossible ↔
        check_elem_action_seq wh seq = .impossible) := by
  have hl := ceasLoop_matches_specReplay seq wh hval
  refine ⟨?_, ?_, ?_⟩
  · unfold check_elem_action_seq
    rw [hl]
    cases hsr : specReplay wh (dirsOf seq) <;> simp
  · intro w hw
    unfold check_elem_action_seq
    rw [hl, hw]
  · intro tg wt
    unfold check_elem_action_seq
    rw [ceasLoop_targets_weights]
    cases ceasLoop wh seq <;> simp

/-- C2 witness: in the 3×3 room, "Up" walks into a wall, and the
spec replay agrees. -/
theorem check_elem_action_seq_spec_witness :
    (∀ a ∈ ["Up"], (lookupDirection a).isSome) ∧
    ((check_elem_action_seq whA ["Up"] = .impossible ↔
        specReplay whA (dirsOf ["Up"]) = none) ∧
    (∀ w, specReplay whA (dirsOf ["Up"]) = some w →
      check_elem_action_seq whA ["Up"] = .grid (renderWarehouse w)) ∧
    (∀ (tg : List Cell) (wt : List Int),
      check_elem_action_seq { whA with targets := tg, weights := wt } ["Up"] = .impossible ↔
        check_elem_action_seq whA ["Up"] = .impossible)) :=
  ⟨by decide, check_elem_action_seq_spec whA ["Up"] (by decide)⟩

/-- The accumulator loop of `get_taboo_cells_between` returns the whole
walked span when every cell on it passes the per-cell test, and the empty
set as soon as any cell fails. -/
theorem get_taboo_cells_between_aux_eq (wh : Warehouse) (sh : Nat) (sv step : Int) :
    ∀ (n : Nat) (v : Int) (acc : List Cell),
    get_taboo_cells_between_aux wh sh sv step n v acc =
    if ∀ c ∈ lineCells sh sv step n v, rule2CellCond wh c sh
    then acc ++ lineCells sh sv step n v
    else [] := by
  intro n
  induction n with
  | zero => intro v acc; simp [get_taboo_cells_between_aux, lineCells]
  | succ n ih =>
    intro v acc
    simp only [get_taboo_cells_between_aux, lineCells]
    by_cases hc : rule2CellCond wh (lineCell sh sv v) sh
    · rw [if_pos hc, ih]
      by_cases hall : ∀ c ∈ lineCells sh sv step n (v + step), rule2CellCond wh c sh
      · rw [if_pos hall, if_pos ?_]
        · simp
        · intro c hcm
          rcases List.mem_cons.mp hcm with hceq | hcmem
          · rw [hceq]; exact hc
          · exact hall c hcmem
      · rw [if_neg hall, if_neg ?_]
        intro hcontra
        exact hall (fun c hcm => hcontra c (List.mem_cons_of_mem _ hcm))
    · rw [if_neg hc, if_neg ?_]
      intro hcontra
      exact hc (hcontra _ (List.mem_cons_self _ _))

/-- C1 (amended): for any aligned corner pair, `get_taboo_cells_between`
marks exactly the cells strictly between the corners when every
intermediate cell is non-wall, non-target and has at least one adjacent
wall — on either side, not necessarily the same side — along the axis
perpendicular to the line; if any intermediate cell fails, it marks
nothing (all-or-nothing per pair).  No continuous same-side wall run is
required. -/
theorem get_taboo_cells_between_allornothing (wh : Warehouse)
    (corner other_corner : Cell) (sharedAxisIndex : Nat) :
    get_taboo_cells_between wh corner other_corner sharedAxisIndex =
    if ∀ c ∈ intermediateCells corner other_corner sharedAxisIndex,
        rule2CellCond wh c sharedAxisIndex
    then intermediateCells corner other_corner sharedAxisIndex
    else [] := by
  unfold get_taboo_cells_between intermediateCells
  rw [get_taboo_cells_between_aux_eq]
  simp

/-- C1 counterexample: in `wh1ex`, the aligned non-target corners (0,0)
and (0,3) make the code mark both intermediate cells, although no wall
runs continuously on one same side of the span — the spec's same-side
condition is not what the code checks. -/
theorem rule2_sameside_counterexample :
    is_corner wh1ex (0, 0) ∧ is_corner wh1ex (0, 3) ∧
    (0, 0) ∉ wh1ex.targets ∧ (0, 3) ∉ wh1ex.targets ∧
    get_taboo_cells_between wh1ex (0, 0) (0, 3) 0 = [(0, 1), (0, 2)] ∧
    ¬ specSameSideWallRun wh1ex (0, 0) (0, 3) 0 := by
  decide

/-- Reached cells are never walls: both constructors require it. -/
theorem reach_not_wall {walls : List Cell} {start c : Cell}
    (h : Reach walls start c) : c ∉ walls := by
  cases h <;> assumption

/-- Soundness of the flood fill: every cell it collects is reachable from
the start through non-wall cells, for any fuel, provided the visited set
already consists of reached cells and the current cell is the start or a
neighbour of a reached cell. -/
theorem get_inside_cells_aux_reach (walls : List Cell) (start : Cell) :
    ∀ (fuel : Nat) (inside : List Cell) (cell : Cell),
    (∀ c ∈ inside, Reach walls start c) →
    (cell = start ∨ ∃ c0, Reach walls start c0 ∧
      (cell.1 - c0.1, cell.2 - c0.2) ∈ dirVecs) →
    ∀ c ∈ get_inside_cells_aux walls fuel inside cell, Reach walls start c := by
  intro fuel
  induction fuel with
  | zero =>
    intro inside cell hin _
    simpa [get_inside_cells_aux] using hin
  | succ fuel ih =>
    intro inside cell hin hcand
    simp only [get_inside_cells_aux]
    by_cases hw : cell ∈ walls
    · rw [if_pos hw]; exact hin
    · rw [if_neg hw]
      have hreach : Reach walls start cell := by
        rcases hcand with rfl | ⟨c0, hc0, hadj⟩
        · exact Reach.init hw
        · exact Reach.step hc0 hw hadj
      have hstep : ∀ (acc : List Cell) (d : Cell), d ∈ dirVecs →
          (∀ c ∈ acc, Reach walls start c) →
          ∀ c ∈ (if cadd cell d ∈ acc then acc
                 else get_inside_cells_aux walls fuel acc (cadd cell d)),
            Reach walls start c := by
        intro acc d hd hacc
        by_cases hmem : cadd cell d ∈ acc
        · rw [if_pos hmem]; exact hacc
        · rw [if_neg hmem]
          apply ih acc (cadd cell d) hacc
          right
          refine ⟨cell, hreach, ?_⟩
          have heq : ((cadd cell d).1 - cell.1, (cadd cell d).2 - cell.2) = d := by
            simp [cadd]
          rw [heq]
          exact hd
      have h0 : ∀ c ∈ (if cell ∈ inside then inside else cell :: inside),
          Reach walls start c := by
        by_cases hmem : cell ∈ inside
        · rw [if_pos hmem]; exact hin
        · rw [if_neg hmem]
          intro c hc
          rcases List.mem_cons.mp hc with rfl | hc2
          · exact hreach
          · exact hin c hc2
      exact hstep _ (0, 1) (by decide)
        (hstep _ (0, -1) (by decide)
          (hstep _ (1, 0) (by decide)
            (hstep _ (-1, 0) (by decide) h0)))

/-- Every cell the flood fill reports is in the reachable region. -/
theorem get_inside_cells_reach (wh : Warehouse) (fuel : Nat) :
    ∀ c ∈ get_inside_cells wh fuel, Reach wh.walls wh.worker c := by
  apply get_inside_cells_aux_reach
  · intro c hc
    exact absurd hc (List.not_mem_nil c)
  · exact Or.inl rfl

/-- Both components of a pair produced by the combinations of a list are
members of that list. -/
theorem cornerPairs_mem : ∀ (l : List Cell) (pr : Cell × Cell), pr ∈ cornerPairs l →
    pr.1 ∈ l ∧ pr.2 ∈ l := by
  intro l
  induction l with
  | nil => intro pr hpr; simp [cornerPairs] at hpr
  | cons c rest ih =>
    intro pr hpr
    simp only [cornerPairs, List.mem_append, List.mem_map] at hpr
    rcases hpr with ⟨c2, hc2, rfl⟩ | hrec
    · exact ⟨List.mem_cons_self _ _, List.mem_cons_of_mem _ hc2⟩
    · have := ih pr hrec
      exact ⟨List.mem_cons_of_mem _ this.1, List.mem_cons_of_mem _ this.2⟩

/-- Membership after the set-style insert. -/
theorem mem_insertCell {c x : Cell} {l : List Cell} (h : c ∈ insertCell x l) :
    c = x ∨ c ∈ l := by
  unfold insertCell at h
  by_cases hx : x ∈ l
  · rw [if_pos hx] at h; exact Or.inr h
  · rw [if_neg hx] at h
    rcases List.mem_append.mp h with h1 | h2
    · exact Or.inr h1
    · simp at h2; exact Or.inl h2

/-- Membership after the set-style union. -/
theorem mem_unionCells : ∀ (extra l : List Cell) (c : Cell),
    c ∈ unionCells l extra → c ∈ l ∨ c ∈ extra := by
  intro extra
  induction extra with
  | nil => intro l c h; exact Or.inl h
  | cons x xs ih =>
    intro l c h
    have hstep : unionCells l (x :: xs) = unionCells (insertCell x l) xs := rfl
    rw [hstep] at h
    rcases ih _ c h with h1 | h2
    · rcases mem_insertCell h1 with rfl | h3
      · exact Or.inr (List.mem_cons_self _ _)
      · exact Or.inl h3
    · exact Or.inr (List.mem_cons_of_mem _ h2)

/-- Walking the line from a reached cell through non-wall cells keeps
every cell on the line reachable. -/
theorem lineCells_reach (walls : List Cell) (start : Cell) (sh : Nat)
    (hsh : sh = 0 ∨ sh = 1) (sv step : Int) (hstep : step = -1 ∨ step = 1) :
    ∀ (n : Nat) (v : Int),
    Reach walls start (lineCell sh sv (v - step)) →
    (∀ c ∈ lineCells sh sv step n v, c ∉ walls) →
    ∀ c ∈ lineCells sh sv step n v, Reach walls start c := by
  intro n
  induction n with
  | zero => intro v _ _ c hc; simp [lineCells] at hc
  | succ n ih =>
    intro v hprev hnw
    have hadj : ((lineCell sh sv v).1 - (lineCell sh sv (v - step)).1,
        (lineCell sh sv v).2 - (lineCell sh sv (v - step)).2) ∈ dirVecs := by
      rcases hsh with rfl | rfl <;> rcases hstep with rfl | rfl <;>
        simp [lineCell, setCoord, coord, dirVecs]
    have hfirst : Reach walls start (lineCell sh sv v) :=
      Reach.step hprev (hnw _ (by simp [lineCells])) hadj
    intro c hc
    simp only [lineCells, List.mem_cons] at hc
    rcases hc with rfl | htail
    · exact hfirst
    · have hprev2 : Reach walls start (lineCell sh sv (v + step - step)) := by
        have hv : v + step - step = v := by ring
        rw [hv]
        exact hfirst
      exact ih (v + step) hprev2
        (fun x hx => hnw x (by simp [lineCells, List.mem_cons, hx]))
        c htail

/-- The start cell of the walk of `get_taboo_cells_between` is the first
corner itself. -/
theorem lineCell_corner (corner : Cell) (sh : Nat) (hsh : sh = 0 ∨ sh = 1) :
    lineCell sh (coord corner sh) (coord corner (1 - sh)) = corner := by
  rcases hsh with rfl | rfl <;> simp [lineCell, setCoord, coord]

/-- Soundness of the Rule-2 walk: every cell `get_taboo_cells_between`
returns is reachable (given the first corner is), and is neither a wall
nor a target. -/
theorem get_taboo_cells_between_sound (wh : Warehouse) (corner other : Cell)
    (sh : Nat) (hsh : sh = 0 ∨ sh = 1)
    (hreach : Reach wh.walls wh.worker corner) :
    ∀ c ∈ get_taboo_cells_between wh corner other sh,
      Reach wh.walls wh.worker c ∧ c ∉ wh.walls ∧ c ∉ wh.targets := by
  unfold get_taboo_cells_between
  rw [get_taboo_cells_between_aux_eq]
  by_cases hall : ∀ c ∈ lineCells sh (coord corner sh)
      (if coord other (1 - sh) - coord corner (1 - sh) < 0 then -1 else 1)
      ((coord other (1 - sh) - coord corner (1 - sh)).natAbs - 1)
      (coord corner (1 - sh) + (if coord other (1 - sh) - coord corner (1 - sh) < 0 then -1 else 1)),
      rule2CellCond wh c sh
  · rw [if_pos hall]
    intro c hc
    simp only [List.nil_append] at hc
    have hcond := hall c hc
    refine ⟨?_, hcond.1, hcond.2.1⟩
    have hstep : (if coord other (1 - sh) - coord corner (1 - sh) < 0 then (-1 : Int) else 1) = -1 ∨
        (if coord other (1 - sh) - coord corner (1 - sh) < 0 then (-1 : Int) else 1) = 1 := by
      split <;> simp
    refine lineCells_reach wh.walls wh.worker sh hsh (coord corner sh) _ hstep _ _ ?_
      (fun x hx => (hall x hx).1) c hc
    have hv : coord corner (1 - sh) +
        (if coord other (1 - sh) - coord corner (1 - sh) < 0 then (-1 : Int) else 1) -
        (if coord other (1 - sh) - coord corner (1 - sh) < 0 then (-1 : Int) else 1) =
        coord corner (1 - sh) := by ring
    rw [hv, lineCell_corner corner sh hsh]
    exact hreach
  · rw [if_neg hall]
    intro c hc
    simp at hc

/-- Soundness of one pass of the pair loop of `get_taboo_cells`: with
both corners reachable and a sound accumulator, every cell in the
updated taboo set is reachable and neither wall nor target. -/
theorem get_taboo_cells_step_sound (wh : Warehouse) (acc : List Cell) (pr : Cell × Cell)
    (hp1 : Reach wh.walls wh.worker pr.1) (hp2 : Reach wh.walls wh.worker pr.2)
    (hacc : ∀ c ∈ acc, Reach wh.walls wh.worker c ∧ c ∉ wh.walls ∧ c ∉ wh.targets) :
    ∀ c ∈ get_taboo_cells_step wh acc pr,
      Reach wh.walls wh.worker c ∧ c ∉ wh.walls ∧ c ∉ wh.targets := by
  have hins : ∀ (x : Cell) (l : List Cell), Reach wh.walls wh.worker x →
      (∀ c ∈ l, Reach wh.walls wh.worker c ∧ c ∉ wh.walls ∧ c ∉ wh.targets) →
      ∀ c ∈ (if x ∈ wh.targets then l else insertCell x l),
        Reach wh.walls wh.worker c ∧ c ∉ wh.walls ∧ c ∉ wh.targets := by
    intro x l hx hl
    by_cases ht : x ∈ wh.targets
    · rw [if_pos ht]; exact hl
    · rw [if_neg ht]
      intro c hc
      rcases mem_insertCell hc with rfl | hc2
      · exact ⟨hx, reach_not_wall hx, ht⟩
      · exact hl c hc2
  have h2 := hins pr.2 _ hp2 (hins pr.1 acc hp1 hacc)
  intro c hc
  simp only [get_taboo_cells_step] at hc
  set t2 := if pr.2 ∈ wh.targets then (if pr.1 ∈ wh.targets then acc else insertCell pr.1 acc) else insertCell pr.2 (if pr.1 ∈ wh.targets then acc else insertCell pr.1 acc) with ht2
  split at hc
  · rcases mem_unionCells _ _ _ hc with h3 | h4
    · exact h2 c h3
    · split at h4
      · exact get_taboo_cells_between_sound wh pr.1 pr.2 0 (Or.inl rfl) hp1 c h4
      · split at h4
        · exact get_taboo_cells_between_sound wh pr.1 pr.2 1 (Or.inr rfl) hp1 c h4
        · simp at h4
  · exact h2 c hc

/-- Soundness of the whole pair fold of `get_taboo_cells`. -/
theorem get_taboo_cells_fold_sound (wh : Warehouse) :
    ∀ (pairs : List (Cell × Cell)) (acc : List Cell),
    (∀ pr ∈ pairs, Reach wh.walls wh.worker pr.1 ∧ Reach wh.walls wh.worker pr.2) →
    (∀ c ∈ acc, Reach wh.walls wh.worker c ∧ c ∉ wh.walls ∧ c ∉ wh.targets) →
    ∀ c ∈ pairs.foldl (get_taboo_cells_step wh) acc,
      Reach wh.walls wh.worker c ∧ c ∉ wh.walls ∧ c ∉ wh.targets := by
  intro pairs
  induction pairs with
  | nil => intro acc _ hacc; simpa using hacc
  | cons pr rest ih =>
    intro acc hpairs hacc
    simp only [List.foldl_cons]
    apply ih
    · intro q hq
      exact hpairs q (List.mem_cons_of_mem _ hq)
    · exact get_taboo_cells_step_sound wh acc pr
        (hpairs pr (List.mem_cons_self _ _)).1
        (hpairs pr (List.mem_cons_self _ _)).2 hacc

/-- C6: every cell the taboo computation marks lies in the flood-filled
region reachable from the worker ignoring boxes, and no taboo cell is a
wall or a target.  `Reach` is the region the Python flood fill computes
when it terminates, i.e. when the worker is enclosed by walls; the fuel
parameter stands for that terminating recursion. -/
theorem taboo_cells_containment (wh : Warehouse) (fuel : Nat) :
    ∀ c ∈ tabooCellsSet wh fuel,
      Reach wh.walls wh.worker c ∧ c ∉ wh.walls ∧ c ∉ wh.targets := by
  intro c hc
  unfold tabooCellsSet get_taboo_cells at hc
  refine get_taboo_cells_fold_sound wh _ [] ?_ (by intro x hx; simp at hx) c hc
  intro pr hpr
  have hmem := cornerPairs_mem _ pr hpr
  have hsub : ∀ x ∈ get_corner_cells wh (get_inside_cells wh fuel),
      Reach wh.walls wh.worker x := by
    intro x hx
    unfold get_corner_cells at hx
    exact get_inside_cells_reach wh fuel x (List.mem_of_mem_filter hx)
  exact ⟨hsub _ hmem.1, hsub _ hmem.2⟩

/-- C6 witness: in the 5×3 room, the Rule-2 middle cell (2,1) is marked
taboo and is reachable, neither wall nor target. -/
theorem taboo_cells_containment_witness :
    (2, 1) ∈ tabooCellsSet wh6ex 10 ∧
    (Reach wh6ex.walls wh6ex.worker (2, 1) ∧
      (2, 1) ∉ wh6ex.walls ∧ (2, 1) ∉ wh6ex.targets) :=
  ⟨by decide, taboo_cells_containment wh6ex 10 (2, 1) (by decide)⟩

/-- Writing an object with the same boxes location back to any id leaves
that id's boxes location unchanged. -/
theorem getD_set_boxesLoc (objs : List Obj) (oid : Nat) (o' : Obj)
    (hsame : o'.boxesLoc = (objs.getD oid default).boxesLoc) :
    ((objs.set oid o').getD oid default).boxesLoc = (objs.getD oid default).boxesLoc := by
  by_cases hlt : oid < objs.length
  · rw [List.getD_eq_getElem?_getD, List.getElem?_set_self hlt]
    exact hsame
  · rw [List.set_eq_of_length_le (by omega)]

/-- Frame property of the heap-level validator loop: it only ever writes
the given object id and that object's boxes location, and it never
touches any int list. -/
theorem ceasHeapLoop_frame (seq : List String) :
    ∀ (h : Heap) (oid : Nat),
    (∀ j, j ≠ oid → (ceasHeapLoop h oid seq).1.objs[j]? = h.objs[j]?) ∧
    (∀ l, l ≠ (h.objs.getD oid default).boxesLoc →
      (ceasHeapLoop h oid seq).1.cellLists[l]? = h.cellLists[l]?) ∧
    (ceasHeapLoop h oid seq).1.intLists = h.intLists := by
  induction seq with
  | nil =>
    intro h oid
    exact ⟨fun j _ => rfl, fun l _ => rfl, rfl⟩
  | cons a rest ih =>
    intro h oid
    cases hd : lookupDirection a with
    | none =>
      refine ⟨fun j _ => ?_, fun l _ => ?_, ?_⟩ <;> simp [ceasHeapLoop, hd]
    | some d =>
      simp only [ceasHeapLoop, hd]
      by_cases h1 : cadd (h.objs.getD oid default).worker d ∈ (h.objs.getD oid default).walls
      · rw [if_pos h1]
        exact ⟨fun j _ => rfl, fun l _ => rfl, rfl⟩
      · rw [if_neg h1]
        by_cases h2 : cadd (h.objs.getD oid default).worker d ∈
            h.cellLists.getD (h.objs.getD oid default).boxesLoc []
        · rw [if_pos h2]
          by_cases h3 : cadd (cadd (h.objs.getD oid default).worker d) d ∈
                (h.objs.getD oid default).walls ∨
              cadd (cadd (h.objs.getD oid default).worker d) d ∈
                h.cellLists.getD (h.objs.getD oid default).boxesLoc []
          · rw [if_pos h3]
            exact ⟨fun j _ => rfl, fun l _ => rfl, rfl⟩
          · rw [if_neg h3]
            set o := h.objs.getD oid default with ho
            set boxes := h.cellLists.getD o.boxesLoc [] with hboxes
            set bnext := cadd (cadd o.worker d) d with hbnext
            set box_index := boxes.findIdx
              (fun b => decide (b = cadd o.worker d)) with hbi
            set h2heap := (h.setCellList o.boxesLoc
              (boxes.set box_index bnext)).setObj oid
              { o with worker := cadd o.worker d } with hh2
            have hbl : (h2heap.objs.getD oid default).boxesLoc =
                (h.objs.getD oid default).boxesLoc := by
              rw [hh2]
              exact getD_set_boxesLoc _ oid _ rfl
            obtain ⟨ihobjs, ihcells, ihints⟩ := ih h2heap oid
            refine ⟨?_, ?_, ?_⟩
            · intro j hj
              rw [ihobjs j hj, hh2]
              exact List.getElem?_set_ne (fun hc => hj hc.symm)
            · intro l hl
              rw [ihcells l (by rw [hbl]; exact hl), hh2]
              exact List.getElem?_set_ne (fun hc => hl hc.symm)
            · rw [ihints, hh2]; rfl
        · rw [if_neg h2]
          set o := h.objs.getD oid default with ho
          set h2heap := h.setObj oid { o with worker := cadd o.worker d } with hh2
          have hbl : (h2heap.objs.getD oid default).boxesLoc =
              (h.objs.getD oid default).boxesLoc := by
            rw [hh2]
            exact getD_set_boxesLoc _ oid _ rfl
          obtain ⟨ihobjs, ihcells, ihints⟩ := ih h2heap oid
          refine ⟨?_, ?_, ?_⟩
          · intro j hj
            rw [ihobjs j hj, hh2]
            exact List.getElem?_set_ne (fun hc => hj hc.symm)
          · intro l hl
            rw [ihcells l (by rw [hbl]; exact hl), hh2]
            rfl
          · rw [ihints, hh2]; rfl

/-- C9: `check_elem_action_seq` leaves the caller's warehouse unchanged:
the worker attribute of the caller's object, the contents of the caller's
boxes list and the contents of the caller's weights list read the same
after the call as before, whatever the outcome — the function copies the
warehouse (with fresh boxes and weights lists) and writes only through
the copy. -/
theorem check_elem_action_seq_frame (h : Heap) (cid : Nat) (seq : List String)
    (hc : cid < h.objs.length)
    (hb : (h.objs.getD cid default).boxesLoc < h.cellLists.length)
    (hw : (h.objs.getD cid default).weightsLoc < h.intLists.length) :
    (check_elem_action_seq_heap h cid seq).1.objs[cid]? = h.objs[cid]? ∧
    (check_elem_action_seq_heap h cid seq).1.cellLists[(h.objs.getD cid default).boxesLoc]? =
      h.cellLists[(h.objs.getD cid default).boxesLoc]? ∧
    (check_elem_action_seq_heap h cid seq).1.intLists[(h.objs.getD cid default).weightsLoc]? =
      h.intLists[(h.objs.getD cid default).weightsLoc]? := by
  have hrun : check_elem_action_seq_heap h cid seq =
      ceasHeapLoop
        { objs := h.objs ++ [{ h.objs.getD cid default with boxesLoc := h.cellLists.length, weightsLoc := h.intLists.length }],
          cellLists := h.cellLists ++ [h.cellLists.getD (h.objs.getD cid default).boxesLoc []],
          intLists := h.intLists ++ [h.intLists.getD (h.objs.getD cid default).weightsLoc []] }
        h.objs.length seq := rfl
  obtain ⟨fobjs, fcells, fints⟩ := ceasHeapLoop_frame seq
    { objs := h.objs ++ [{ h.objs.getD cid default with boxesLoc := h.cellLists.length, weightsLoc := h.intLists.length }],
      cellLists := h.cellLists ++ [h.cellLists.getD (h.objs.getD cid default).boxesLoc []],
      intLists := h.intLists ++ [h.intLists.getD (h.objs.getD cid default).weightsLoc []] }
    h.objs.length
  have hgd : (h.objs ++ [{ h.objs.getD cid default with boxesLoc := h.cellLists.length, weightsLoc := h.intLists.length }]).getD h.objs.length default =
      { h.objs.getD cid default with boxesLoc := h.cellLists.length, weightsLoc := h.intLists.length } := by
    rw [List.getD_eq_getElem?_getD, List.getElem?_append_right (le_refl _)]
    simp
  rw [hrun]
  refine ⟨?_, ?_, ?_⟩
  · rw [fobjs cid (by omega)]
    rw [List.getElem?_append, if_pos hc]
  · rw [fcells (h.objs.getD cid default).boxesLoc
      (by rw [hgd]; show (h.objs.getD cid default).boxesLoc ≠ h.cellLists.length; omega)]
    rw [List.getElem?_append, if_pos hb]
  · rw [fints]
    rw [List.getElem?_append, if_pos hw]

/-- C9 witness: in a one-object heap with one box and one weight, the
push sequence leaves the caller's object, boxes list and weights list
untouched. -/
theorem check_elem_action_seq_frame_witness :
    (0 < heap9ex.objs.length ∧
      (heap9ex.objs.getD 0 default).boxesLoc < heap9ex.cellLists.length ∧
      (heap9ex.objs.getD 0 default).weightsLoc < heap9ex.intLists.length) ∧
    ((check_elem_action_seq_heap heap9ex 0 ["Up"]).1.objs[0]? = heap9ex.objs[0]? ∧
    (check_elem_action_seq_heap heap9ex 0 ["Up"]).1.cellLists[(heap9ex.objs.getD 0 default).boxesLoc]? =
      heap9ex.cellLists[(heap9ex.objs.getD 0 default).boxesLoc]? ∧
    (check_elem_action_seq_heap heap9ex 0 ["Up"]).1.intLists[(heap9ex.objs.getD 0 default).weightsLoc]? =
      heap9ex.intLists[(heap9ex.objs.getD 0 default).weightsLoc]?) :=
  ⟨by decide,
    check_elem_action_seq_frame heap9ex 0 ["Up"] (by decide) (by decide) (by decide)⟩

end Sokoban
